import Mathlib

/-!
Verification of the localization-script repository (src/main.py, src/translate.py).

The development shallowly embeds the core of the program:
  * `parse` (main.py, lines 152-190): the line parser built on the Python regex
    `"(.*)" *= *"(.*)";` applied with `re.match` (prefix match, anchored at the
    start only) to each stripped line, accumulating an insertion-ordered
    dictionary keyed by the first capture group, first occurrence winning.
  * `get_missing_declarations` / `string_format_lines` (main.py, lines 200-259).
  * `get_language` (main.py, lines 262-270): `re.search` of
    `([a-z]{2,3}(?:-[a-zA-Z]{2})?)\.lproj`.
  * `get_translated_declarations` (main.py, lines 273-292) and the translation
    loop of `main` (main.py, lines 354-379), with the shipped no-op
    `Translator.a_batch_translate` (translate.py).

Strings are modelled as `List Char`; a file is the list of its lines (the
result of Python `readlines`, which splits on newlines, so a line holds no
internal newline).  Python dictionaries are modelled as insertion-ordered
association lists.  Console output is a pure side effect in the source and is
dropped; `raise` is modelled with `Except`.
-/

namespace LocalizationScript

/-- A string of the Python program. -/
abbrev PyStr := List Char

/-- One line of an input file. -/
abbrev Line := List Char

/-- One entry of the dictionary built by `parse`: `(key, (line number, value))`. -/
abbrev Entry := PyStr × Nat × PyStr

/-- The dictionary returned by `parse` (main.py line 154:
`dict[str, tuple[int, str]]`), modelled as an insertion-ordered association
list; `parse` never inserts a key twice. -/
abbrev ParsedFile := List Entry

/-- Python `str.isspace` on the ASCII whitespace characters recognised by
`str.strip()`. -/
def pyIsSpace (c : Char) : Bool :=
  c = ' ' || c = '\t' || c = '\n' || c = '\r' || c = '\x0b' || c = '\x0c'

/-- Python `line.strip()` (main.py line 166). -/
def pyStrip (s : List Char) : List Char :=
  ((s.dropWhile pyIsSpace).reverse.dropWhile pyIsSpace).reverse

/-- The literal `";` of the pattern read at the current position: the
character in hand must be `"` and the next one `;` (the rest of the line is
ignored: `re.match` does not anchor at the end). -/
def quoteSemiHere (c : Char) (rest : List Char) : Option (List Char) :=
  if c = '"' then
    match rest with
    | ';' :: _ => some []
    | _ => none
  else none

/-- The tail of the regex `"(.*)" *= *"(.*)";` after the second `"`: the
greedy `(.*)` followed by `";`.  Returns the second capture group of the
longest match, i.e. the longest newline-free prefix that is followed by the
two characters `";`. -/
def matchValue : List Char → Option (List Char)
  | [] => none
  | c :: rest =>
    match matchValue rest with
    | some v => if c = '\n' then none else some (c :: v)
    | none => quoteSemiHere c rest

/-- The part of the regex after `" *=`: the second ` *`, the opening `"` of
the value, then `matchValue`.  (`*` repeats a literal space; taking the
maximal run of spaces is exact, since backtracking onto a space can never
satisfy the following non-space literal.) -/
def matchRestAfterEq (r3 : List Char) : Option (List Char) :=
  match r3.dropWhile (· = ' ') with
  | [] => none
  | e :: r5 => if e = '"' then matchValue r5 else none

/-- The part of the regex after the closing `"` of the key: ` *`, the literal
`=`, then `matchRestAfterEq`. -/
def matchRestAfterQuote (r1 : List Char) : Option (List Char) :=
  match r1.dropWhile (· = ' ') with
  | [] => none
  | d :: r3 => if d = '=' then matchRestAfterEq r3 else none

/-- The part of the regex `"(.*)" *= *"(.*)";` that follows the first capture
group: the closing `"` of the key, then `matchRestAfterQuote`. -/
def matchRest : List Char → Option (List Char)
  | [] => none
  | c :: r1 => if c = '"' then matchRestAfterQuote r1 else none

/-- The regex `"(.*)" *= *"(.*)";` from the first capture group on (the input
is the line after its leading `"`).  The first `(.*)` is greedy: the longest
newline-free prefix after which `matchRest` succeeds wins, exactly as in
Python's backtracking. -/
def matchKey : List Char → Option (List Char × List Char)
  | [] => none
  | c :: rest =>
    match matchKey rest with
    | some (k, v) => if c = '\n' then none else some (c :: k, v)
    | none =>
      match matchRest (c :: rest) with
      | some v => some ([], v)
      | none => none

/-- `re.compile(r"\"(.*)\" *= *\"(.*)\";").match s` (main.py lines 163-166):
`some (key, value)` when the pattern matches a prefix of `s`. -/
def matchLine : List Char → Option (List Char × List Char)
  | '"' :: rest => matchKey rest
  | _ => none

/-- Dictionary lookup, first entry with the given key (`lines[key]`). -/
def findKey (k : PyStr) : ParsedFile → Option (Nat × PyStr)
  | [] => none
  | (key, p) :: rest => if key = k then some p else findKey k rest

/-- Python `key in lines` (main.py line 181). -/
def hasKey (k : PyStr) (m : ParsedFile) : Bool :=
  (findKey k m).isSome

/-- One iteration of the parsing loop (main.py lines 165-189) on the line with
0-based index `i`: non-matching lines (blank or not) are skipped, a key
already present is skipped, otherwise `lines[key] = (i, value)` appends the
new entry.  The reporting flags only gate `print` calls and are dropped. -/
def parseStep (i : Nat) (acc : ParsedFile) (line : Line) : ParsedFile :=
  match matchLine (pyStrip line) with
  | none => acc
  | some (key, value) => if hasKey key acc then acc else acc ++ [(key, i, value)]

/-- The parsing loop `for i, line in enumerate(f.readlines())`, starting at
index `i` with accumulated dictionary `acc`. -/
def parseGo : Nat → ParsedFile → List Line → ParsedFile
  | _, acc, [] => acc
  | i, acc, l :: ls => parseGo (i + 1) (parseStep i acc l) ls

/-- `parse` (main.py lines 152-190) on the list of lines of the file.  Opening
and reading the file is I/O and is outside the embedding: the function is
total on the lines it is given, mirroring that the Python body raises nothing
once `readlines()` has returned. -/
def parseLines (ls : List Line) : ParsedFile :=
  parseGo 0 [] ls

/-- `needle in haystack` for Python strings: contiguous-substring test,
used for `"%@" in x[1][1]` (main.py line 240). -/
def containsSub (pat : List Char) : List Char → Bool
  | [] => decide (pat = [])
  | c :: rest => List.isPrefixOf pat (c :: rest) || containsSub pat rest

/-- The core of `get_missing_declarations` (main.py lines 215-218): every
entry of the base dictionary, in its iteration order, whose key is absent
from the comparison dictionary.  The `comparison_file` argument and the
`report` flags of the source only feed `print` calls and are dropped. -/
def get_missing_declarations (base_parse comparison_parse : ParsedFile) :
    List Entry :=
  base_parse.filter (fun e => !hasKey e.1 comparison_parse)

/-- `string_format_lines` (main.py line 240): the missing declarations whose
value contains the marker `%@`.  Computed for a warning table only; the
function still returns the unfiltered missing list (main.py line 259). -/
def string_format_lines (base_parse comparison_parse : ParsedFile) :
    List Entry :=
  (get_missing_declarations base_parse comparison_parse).filter
    (fun e => containsSub ['%', '@'] e.2.2)

/-- ASCII `[a-z]` of the language regex. -/
def isAsciiLower (c : Char) : Bool := 'a' ≤ c && c ≤ 'z'

/-- ASCII `[a-zA-Z]` of the language regex. -/
def isAsciiAlpha (c : Char) : Bool := isAsciiLower c || ('A' ≤ c && c ≤ 'Z')

/-- The literal `\.lproj` of the language regex. -/
def lprojChars : List Char := ".lproj".toList

/-- After the 2- or 3-letter primary `code`: the optional group
`(?:-[a-zA-Z]{2})?` (greedy, so tried with the region first) followed by the
literal `\.lproj`. -/
def matchLangTail (code : List Char) (rest : List Char) : Option (List Char) :=
  match rest with
  | '-' :: a :: b :: r =>
    if isAsciiAlpha a && isAsciiAlpha b && List.isPrefixOf lprojChars r then
      some (code ++ ['-', a, b])
    else if List.isPrefixOf lprojChars rest then some code
    else none
  | _ => if List.isPrefixOf lprojChars rest then some code else none

/-- A match of `([a-z]{2,3}(?:-[a-zA-Z]{2})?)\.lproj` anchored at the start of
`s`, returning the capture group.  `{2,3}` is greedy: three lowercase letters
are tried before two. -/
def matchLangAt (s : List Char) : Option (List Char) :=
  match s with
  | c1 :: c2 :: c3 :: rest =>
    if isAsciiLower c1 && isAsciiLower c2 then
      if isAsciiLower c3 then
        match matchLangTail [c1, c2, c3] rest with
        | some r => some r
        | none => matchLangTail [c1, c2] (c3 :: rest)
      else matchLangTail [c1, c2] (c3 :: rest)
    else none
  | [c1, c2] =>
    if isAsciiLower c1 && isAsciiLower c2 then matchLangTail [c1, c2] []
    else none
  | _ => none

/-- `re.search(r"([a-z]{2,3}(?:-[a-zA-Z]{2})?)\.lproj", s)` (main.py
line 267): the leftmost starting position wins. -/
def searchLang : List Char → Option (List Char)
  | [] => none
  | c :: rest =>
    match matchLangAt (c :: rest) with
    | some r => some r
    | none => searchLang rest

/-- `get_language` (main.py lines 262-270).  `.error filepath` models the
raised `ValueError` (the `UnresolvedLanguage` failure of the spec), whose
message names the file path. -/
def get_language (filepath : PyStr) : Except PyStr PyStr :=
  match searchLang filepath with
  | some code => .ok code
  | none => .error filepath

/-- One result of the translation dependency as the orchestrator consumes it:
`get_translated_declarations` reads the attribute `t.text` of each returned
item (main.py line 285, under a `# type: ignore`), so an item is modelled as
a record carrying its translated text. -/
structure Translation where
  text : PyStr
deriving DecidableEq

/-- The batch interface of the translation dependency
(`Translator.a_batch_translate`, translate.py lines 9-13), as a pure function
of `(texts, dest, src)` — `asyncio.run` merely executes the coroutine. -/
abbrev BatchTranslate := List PyStr → PyStr → PyStr → List Translation

/-- The shipped `Translator.a_batch_translate` (translate.py lines 9-13):
prints a notice and returns the empty list for every input. -/
def shippedBatchTranslate : BatchTranslate := fun _ _ _ => []

/-- An output row of `get_translated_declarations`:
`(key, (line number, value), translation)`. -/
abbrev TEntry := PyStr × (Nat × PyStr) × PyStr

/-- `get_translated_declarations` (main.py lines 273-292), parametrised by the
translation dependency `bt`: extract the values of the missing declarations,
submit them as one batch, then `zip` the missing declarations with the
returned texts.  Python's `zip` stops at the shorter of its arguments, and the
lazy `map` of `t.text` only touches the items `zip` consumes. -/
def get_translated_declarations (bt : BatchTranslate)
    (missing_decls : List Entry) (dest : PyStr) (src : PyStr) : List TEntry :=
  let texts := missing_decls.map (fun x => x.2.2)
  let translations := bt texts dest src
  let translated_texts := translations.map (fun t => t.text)
  (missing_decls.zip translated_texts).map (fun pair => (pair.1.1, pair.1.2, pair.2))

/-- The translation loop of `main` (main.py lines 354-379), parametrised by
the translation dependency.  Files with no missing declarations are skipped;
otherwise `src` is resolved from the base file and `dest` from the comparison
file, and a `ValueError` raised by `get_language` propagates out of the loop
(there is no `try` in `main`), aborting the whole run — modelled by the
`Except` short-circuit.  The result collects, per comparison file, what the
source stores in `translated_declarations`. -/
def translate_loop (bt : BatchTranslate) (base_file : PyStr) :
    List (PyStr × List Entry) → Except PyStr (List (PyStr × List TEntry))
  | [] => .ok []
  | (comparison_file, missing_decls) :: rest =>
    if missing_decls.isEmpty then translate_loop bt base_file rest
    else
      match get_language base_file with
      | .error e => .error e
      | .ok src =>
        match get_language comparison_file with
        | .error e => .error e
        | .ok dest =>
          match translate_loop bt base_file rest with
          | .error e => .error e
          | .ok out =>
            .ok ((comparison_file,
                  get_translated_declarations bt missing_decls dest src) :: out)

/-! ### Spec-side definitions

These follow the words of the spec (not the source); each is compared with
the source-derived functions above by the theorems below. -/

/-- Modelled from the spec (§4.1 policy, "keep the first occurrence"): the
first line, scanning from line index `i`, whose stripped text matches the
pattern with key `k`; yields that line's index and extracted value. -/
def specFirstOccurrence (k : PyStr) : Nat → List Line → Option (Nat × PyStr)
  | _, [] => none
  | i, l :: ls =>
    match matchLine (pyStrip l) with
    | some (key, value) =>
      if key = k then some (i, value) else specFirstOccurrence k (i + 1) ls
    | none => specFirstOccurrence k (i + 1) ls

/-- Modelled from the spec (claim C7's grammar): `matchValue` but requiring
the trailing `";` to end the line — nothing may follow it. -/
def specValueToEnd : List Char → Option (List Char)
  | [] => none
  | c :: rest =>
    match specValueToEnd rest with
    | some v => if c = '\n' then none else some (c :: v)
    | none =>
      if c = '"' then
        match rest with
        | [';'] => some []
        | _ => none
      else none

/-- Modelled from the spec: the tail of the exact grammar after the key's
closing quote, `" *= *"` then `specValueToEnd`. -/
def specRestToEnd (r1 : List Char) : Option (List Char) :=
  match r1.dropWhile (· = ' ') with
  | [] => none
  | d :: r3 =>
    if d = '=' then
      match r3.dropWhile (· = ' ') with
      | [] => none
      | e :: r5 => if e = '"' then specValueToEnd r5 else none
    else none

/-- Modelled from the spec: the exact grammar's key part, with the whole rest
of the line consumed by the grammar; a line conforms for some choice of key
and value exactly when this succeeds. -/
def specKeyToEnd : List Char → Option (List Char × List Char)
  | [] => none
  | c :: rest =>
    match specKeyToEnd rest with
    | some (k, v) => if c = '\n' then none else some (c :: k, v)
    | none =>
      if c = '"' then
        match specRestToEnd rest with
        | some v => some ([], v)
        | none => none
      else none

/-- Modelled from the spec (claim C7): a trimmed line conforms to the grammar
`"<key>" = "<value>";` — with nothing at all after the trailing `;` — exactly
when this returns `some (key, value)`. -/
def specGrammarLine : List Char → Option (List Char × List Char)
  | '"' :: rest => specKeyToEnd rest
  | _ => none

/-! ### Concrete instances used by witnesses and counterexamples -/

/-- A base-file path with a resolvable locale directory. -/
def basePathEx : PyStr := "/Proj/en.lproj/Localizable.strings".toList

/-- A comparison-file path with no `.lproj` segment. -/
def badPathEx : PyStr := "/Proj/Base/Localizable.strings".toList

/-- A comparison-file path with a resolvable locale directory. -/
def goodPathEx : PyStr := "/Proj/fr.lproj/Localizable.strings".toList

/-- A missing declaration used as a concrete input. -/
def exEntry : Entry := ("hi".toList, 0, "Hello".toList)

/-- A translation stub answering one item, used as a concrete dependency. -/
def oneTranslationStub : BatchTranslate := fun _ _ _ => [⟨"Bonjour".toList⟩]

/-- A trimmed, non-blank line with extra text after the trailing `;`. -/
def junkTailLine : Line := "\"a\" = \"b\"; tail".toList

-- sanity checks of the matcher against the Python regex engine
example : matchLine ("\"a\" = \"b\";".toList) = some ("a".toList, "b".toList) := by decide
example : matchLine ("\"a\" = \"b\"; extra".toList) = some ("a".toList, "b".toList) := by
  decide
example : matchLine ("\"a\"=\"b\";".toList) = some ("a".toList, "b".toList) := by decide
example : matchLine ("\"a\"  =  \"b\";".toList) = some ("a".toList, "b".toList) := by decide
example : matchLine ("\"a\" = \"b\" = \"c\";".toList)
    = some ("a\" = \"b".toList, "c".toList) := by decide
example : matchLine ("\"a\" = \"b\"; \"c\" = \"d\";".toList)
    = some ("a\" = \"b\"; \"c".toList, "d".toList) := by decide
example : matchLine ("x\"a\" = \"b\";".toList) = none := by decide
example : matchLine ("\"a\" = \"b\"".toList) = none := by decide
example : matchLine ("\"\" = \"\";".toList) = some ([], []) := by decide
example : pyStrip ("  \"a\" = \"b\";\n".toList) = "\"a\" = \"b\";".toList := by decide
example : parseLines ["\"a\" = \"b\";".toList, "\"a\" = \"c\";".toList]
    = [("a".toList, 0, "b".toList)] := by decide

-- sanity checks of the language search against the Python regex engine
example : searchLang "/Res/fr.lproj/Localizable.strings".toList = some "fr".toList := by
  decide
example : searchLang "/a/zh-CN.lproj/x".toList = some "zh-CN".toList := by decide
example : searchLang "/abcd.lproj/x".toList = some "bcd".toList := by decide
example : searchLang "/en.lproj/fr.lproj/x".toList = some "en".toList := by decide
example : searchLang "/no/match".toList = none := by decide
example : searchLang "/zh-CNx.lproj/".toList = none := by decide
example : searchLang "/ab-c.lproj/x".toList = none := by decide

-- sanity checks of the spec-side exact grammar
example : specGrammarLine "\"a\" = \"b\";".toList = some ("a".toList, "b".toList) := by
  decide
example : specGrammarLine "\"a\" = \"b\"; x".toList = none := by decide
example : specGrammarLine "\"a\" = \"b\";;".toList = none := by decide

/-! ### Dictionary lemmas -/

theorem findKey_append (k : PyStr) (a b : ParsedFile) :
    findKey k (a ++ b) =
      match findKey k a with
      | some p => some p
      | none => findKey k b := by
  induction a with
  | nil => simp [findKey]
  | cons e a ih =>
    obtain ⟨key, p⟩ := e
    by_cases h : key = k <;> simp [findKey, h, ih]

/-- What one parsing step contributes to a lookup: an entry already present
is kept, else the processed line contributes exactly when it matches with the
looked-up key. -/
theorem findKey_parseStep (i : Nat) (acc : ParsedFile) (l : Line) (k : PyStr) :
    findKey k (parseStep i acc l) =
      match findKey k acc with
      | some p => some p
      | none =>
        match matchLine (pyStrip l) with
        | some (key, value) => if key = k then some (i, value) else none
        | none => none := by
  unfold parseStep
  cases hm : matchLine (pyStrip l) with
  | none => cases h : findKey k acc <;> simp [h]
  | some kv =>
    obtain ⟨key, value⟩ := kv
    dsimp only
    cases hk : hasKey key acc with
    | true =>
      rw [if_pos rfl]
      by_cases he : key = k
      · subst he
        unfold hasKey at hk
        cases h : findKey key acc with
        | none => rw [h] at hk; simp at hk
        | some p => simp [h]
      · cases h : findKey k acc <;> simp [h, he]
    | false =>
      rw [if_neg (by simp [hk]), findKey_append]
      by_cases he : key = k
      · subst he
        unfold hasKey at hk
        cases h : findKey key acc with
        | some p => simp [h] at hk
        | none => simp [h, findKey]
      · cases h : findKey k acc <;> simp [h, he, findKey, Ne.symm he]

/-- The parsing loop refines the spec's first-occurrence rule: looking a key
up in the final dictionary finds what the accumulator already held, else the
first later matching line. -/
theorem findKey_parseGo (ls : List Line) :
    ∀ (i : Nat) (acc : ParsedFile) (k : PyStr),
      findKey k (parseGo i acc ls) =
        match findKey k acc with
        | some p => some p
        | none => specFirstOccurrence k i ls := by
  induction ls with
  | nil =>
    intro i acc k
    cases h : findKey k acc <;> simp [parseGo, specFirstOccurrence, h]
  | cons l ls ih =>
    intro i acc k
    show findKey k (parseGo (i + 1) (parseStep i acc l) ls) = _
    rw [ih, findKey_parseStep]
    cases h : findKey k acc with
    | some p => simp
    | none =>
      cases hm : matchLine (pyStrip l) with
      | none => simp [specFirstOccurrence, hm]
      | some kv =>
        obtain ⟨key, value⟩ := kv
        by_cases he : key = k <;> simp [specFirstOccurrence, hm, he]

/-- `parse` refines the spec's duplicate policy: the entry stored under a key
is the first matching occurrence in the file. -/
theorem findKey_parseLines (ls : List Line) (k : PyStr) :
    findKey k (parseLines ls) = specFirstOccurrence k 0 ls := by
  rw [parseLines, findKey_parseGo]
  simp [findKey]

/-- If line `i` matches with key `K` and no earlier line matches with key
`K`, the first occurrence found from index `n` is line `n + i`. -/
theorem specFirstOccurrence_at (K V : PyStr) :
    ∀ (ls : List Line) (i n : Nat) (li : Line),
      ls[i]? = some li →
      matchLine (pyStrip li) = some (K, V) →
      (∀ j, j < i → ∀ l, ls[j]? = some l →
        ∀ v, matchLine (pyStrip l) ≠ some (K, v)) →
      specFirstOccurrence K n ls = some (n + i, V) := by
  intro ls
  induction ls with
  | nil => intro i n li h; simp at h
  | cons l ls ih =>
    intro i n li hget hmatch hfresh
    cases i with
    | zero =>
      simp only [List.getElem?_cons_zero, Option.some.injEq] at hget
      subst hget
      simp [specFirstOccurrence, hmatch]
    | succ i =>
      have h0 : ∀ v, matchLine (pyStrip l) ≠ some (K, v) := by
        intro v
        exact hfresh 0 (Nat.succ_pos i) l (by simp) v
      have hrec := ih i (n + 1) li (by simpa using hget) hmatch ?_
      · have heq : n + 1 + i = n + (i + 1) := by omega
        rw [heq] at hrec
        rw [specFirstOccurrence]
        cases hm : matchLine (pyStrip l) with
        | none => exact hrec
        | some kv =>
          obtain ⟨key, value⟩ := kv
          have hne : key ≠ K := fun he => h0 value (by rw [hm, he])
          simpa [hne] using hrec
      · intro j hj l₀ hget₀ v
        exact hfresh (j + 1) (by omega) l₀ (by simpa using hget₀) v

/-- A key is found in a dictionary exactly when it is one of its keys. -/
theorem hasKey_iff_mem (k : PyStr) (m : ParsedFile) :
    hasKey k m = true ↔ k ∈ m.map Prod.fst := by
  induction m with
  | nil => simp [hasKey, findKey]
  | cons e m ih =>
    obtain ⟨key, p⟩ := e
    by_cases h : key = k
    · subst h
      simp [hasKey, findKey]
    · have h1 : hasKey k ((key, p) :: m) = hasKey k m := by
        rw [hasKey, hasKey, findKey, if_neg h]
      rw [h1, ih]
      simp [Ne.symm h]

/-- In a dictionary with pairwise distinct keys, exactly one entry carries a
key that is present. -/
theorem countP_eq_one_of_nodup_keys (k : PyStr) :
    ∀ (m : ParsedFile), (m.map Prod.fst).Nodup → hasKey k m = true →
      m.countP (fun e => decide (e.1 = k)) = 1 := by
  intro m
  induction m with
  | nil => intro _ h; simp [hasKey, findKey] at h
  | cons e m ih =>
    obtain ⟨key, p⟩ := e
    intro hnd hk
    rw [List.map_cons, List.nodup_cons] at hnd
    rw [List.countP_cons]
    by_cases h : key = k
    · subst h
      have h0 : m.countP (fun e => decide (e.1 = key)) = 0 := by
        rw [List.countP_eq_zero]
        intro a ha hcontra
        simp only [decide_eq_true_eq] at hcontra
        exact hnd.1 (List.mem_map.mpr ⟨a, ha, hcontra⟩)
      simp [h0]
    · have hk1 : hasKey k m = true := by
        rw [hasKey, findKey, if_neg h] at hk
        exact hk
      simp [ih hnd.2 hk1, h]

/-- A successful first-occurrence scan exhibits a matching line. -/
theorem specFirstOccurrence_isSome (k : PyStr) :
    ∀ (ls : List Line) (n : Nat) (p : Nat × PyStr),
      specFirstOccurrence k n ls = some p →
      ∃ (i : Nat) (li : Line) (v : PyStr),
        ls[i]? = some li ∧ matchLine (pyStrip li) = some (k, v) := by
  intro ls
  induction ls with
  | nil => intro n p h; simp [specFirstOccurrence] at h
  | cons l ls ih =>
    intro n p h
    rw [specFirstOccurrence] at h
    cases hm : matchLine (pyStrip l) with
    | none =>
      rw [hm] at h
      obtain ⟨i, li, v, hget, hmatch⟩ := ih (n + 1) p h
      exact ⟨i + 1, li, v, by simpa using hget, hmatch⟩
    | some kv =>
      obtain ⟨key, value⟩ := kv
      rw [hm] at h
      dsimp only at h
      by_cases he : key = k
      · exact ⟨0, l, value, by simp, by rw [hm, he]⟩
      · rw [if_neg he] at h
        obtain ⟨i, li, v, hget, hmatch⟩ := ih (n + 1) p h
        exact ⟨i + 1, li, v, by simpa using hget, hmatch⟩

/-- If no line matches with key `k`, the first-occurrence scan fails. -/
theorem specFirstOccurrence_none (k : PyStr) :
    ∀ (ls : List Line) (n : Nat),
      (∀ (i : Nat) (li : Line), ls[i]? = some li →
        ∀ v, matchLine (pyStrip li) ≠ some (k, v)) →
      specFirstOccurrence k n ls = none := by
  intro ls
  induction ls with
  | nil => intro n _; rfl
  | cons l ls ih =>
    intro n hnone
    rw [specFirstOccurrence]
    cases hm : matchLine (pyStrip l) with
    | none => exact ih (n + 1) fun i li hget v => hnone (i + 1) li (by simpa using hget) v
    | some kv =>
      obtain ⟨key, value⟩ := kv
      have he : key ≠ k := fun he =>
        hnone 0 l (by simp) value (by rw [hm, he])
      dsimp only
      rw [if_neg he]
      exact ih (n + 1) fun i li hget v => hnone (i + 1) li (by simpa using hget) v

/-! ### The Declaration Differ (claims C1 and C8) -/

/-- C1: `get_missing_declarations` returns exactly the base entries whose key
is absent from the comparison dictionary — membership characterisation,
order (a sublist of the base, hence base iteration order), one entry per such
key when the base has no duplicate keys, with line and value unchanged (the
entries are the base's own), and emptiness when every base key is present in
the comparison. -/
theorem c1_diff_completeness (base comp : ParsedFile) :
    (∀ e, e ∈ get_missing_declarations base comp ↔
        e ∈ base ∧ hasKey e.1 comp = false) ∧
    (get_missing_declarations base comp).Sublist base ∧
    ((base.map Prod.fst).Nodup →
      ∀ k, hasKey k base = true → hasKey k comp = false →
        (get_missing_declarations base comp).countP
          (fun e => decide (e.1 = k)) = 1) ∧
    ((∀ e ∈ base, hasKey e.1 comp = true) →
      get_missing_declarations base comp = []) := by
  refine ⟨?_, ?_, ?_, ?_⟩
  · intro e
    simp [get_missing_declarations, List.mem_filter]
  · exact List.filter_sublist base
  · intro hnd k hkb hkc
    rw [get_missing_declarations, List.countP_filter]
    have h1 : base.countP
        (fun e => decide (e.1 = k) && !hasKey e.1 comp) =
        base.countP (fun e => decide (e.1 = k)) := by
      apply List.countP_congr
      intro e _
      by_cases he : e.1 = k
      · rw [he]; simp [hkc]
      · simp [he]
    rw [h1]
    exact countP_eq_one_of_nodup_keys k base hnd hkb
  · intro hall
    rw [get_missing_declarations, List.filter_eq_nil_iff]
    intro e he
    simp [hall e he]

/-- Witness for C1 at a concrete input (discharging the two hypothetical
conjuncts). -/
theorem c1_diff_completeness_witness :
    get_missing_declarations [("a".toList, 0, "x".toList)]
        [("a".toList, 3, "y".toList)] = [] ∧
    (get_missing_declarations [("a".toList, 0, "x".toList)]
        [("b".toList, 3, "y".toList)]).countP
      (fun e => decide (e.1 = "a".toList)) = 1 :=
  ⟨(c1_diff_completeness _ _).2.2.2 (by decide),
   (c1_diff_completeness _ _).2.2.1 (by decide) _ (by decide) (by decide)⟩

/-- C8: the format-specifier subset consists exactly of the missing entries
whose value contains `%@`; it is a sublist of the missing list; and the
missing list the function returns is characterised by keys alone — the marker
never removes an entry from it. -/
theorem c8_format_specifier_subset (base comp : ParsedFile) :
    (∀ e, e ∈ string_format_lines base comp ↔
        e ∈ get_missing_declarations base comp ∧
          containsSub ['%', '@'] e.2.2 = true) ∧
    (string_format_lines base comp).Sublist
      (get_missing_declarations base comp) ∧
    (∀ e, e ∈ get_missing_declarations base comp ↔
        e ∈ base ∧ hasKey e.1 comp = false) := by
  refine ⟨?_, ?_, ?_⟩
  · intro e
    simp [string_format_lines, List.mem_filter]
  · exact List.filter_sublist _
  · intro e
    simp [get_missing_declarations, List.mem_filter]

/-! ### The Translation Orchestrator (claims C2, C4 and C10) -/

/-- The output of the orchestrator is the positional zip: its length is the
minimum of the two lengths. -/
theorem length_get_translated (bt : BatchTranslate) (missing : List Entry)
    (dest src : PyStr) :
    (get_translated_declarations bt missing dest src).length =
      min missing.length (bt (missing.map fun x => x.2.2) dest src).length := by
  simp [get_translated_declarations]

/-- Helper for indexed zip lookups. -/
theorem getElem?_zip_of_both {α β : Type} {l₁ : List α} {l₂ : List β}
    {i : Nat} {a : α} {b : β} (h1 : l₁[i]? = some a) (h2 : l₂[i]? = some b) :
    (l₁.zip l₂)[i]? = some (a, b) :=
  List.getElem?_zip_eq_some.mpr ⟨h1, h2⟩

/-- Entry `i` of the orchestrator's output pairs missing declaration `i` with
the text of returned item `i`. -/
theorem getElem?_get_translated (bt : BatchTranslate) (missing : List Entry)
    (dest src : PyStr) (i : Nat) (d : Entry) (t : Translation)
    (hd : missing[i]? = some d)
    (ht : (bt (missing.map fun x => x.2.2) dest src)[i]? = some t) :
    (get_translated_declarations bt missing dest src)[i]? =
      some (d.1, d.2, t.text) := by
  rw [get_translated_declarations]
  have hzip := getElem?_zip_of_both hd
    (show ((bt (missing.map fun x => x.2.2) dest src).map
        (fun t => t.text))[i]? = some t.text by
      rw [List.getElem?_map, ht]; rfl)
  simp only [List.getElem?_map, hzip]
  rfl

/-- C4: with a dependency returning exactly as many items as submitted texts,
the output has one row per missing declaration and row `i` is
`(key i, (line i, value i), translated text i)`. -/
theorem c4_translation_alignment (bt : BatchTranslate) (missing : List Entry)
    (dest src : PyStr)
    (h : (bt (missing.map fun x => x.2.2) dest src).length = missing.length) :
    (get_translated_declarations bt missing dest src).length =
      missing.length ∧
    ∀ (i : Nat) (d : Entry) (t : Translation), missing[i]? = some d →
      (bt (missing.map fun x => x.2.2) dest src)[i]? = some t →
      (get_translated_declarations bt missing dest src)[i]? =
        some (d.1, d.2, t.text) := by
  refine ⟨?_, fun i d t hd ht => getElem?_get_translated bt missing dest src i d t hd ht⟩
  rw [length_get_translated, h, Nat.min_self]

/-- Witness for C4 at a one-element batch. -/
theorem c4_translation_alignment_witness :
    (get_translated_declarations oneTranslationStub [exEntry]
        "fr".toList "en".toList)[0]? =
      some ("hi".toList, (0, "Hello".toList), "Bonjour".toList) :=
  (c4_translation_alignment oneTranslationStub [exEntry] "fr".toList "en".toList
      (by decide)).2 0 exEntry ⟨"Bonjour".toList⟩ (by decide) (by decide)

/-- C2 counterexample: one missing declaration, a dependency response of
length 0 (the shipped no-op): the lengths differ, yet the orchestrator
surfaces no error — it returns a normal output list, silently truncated to
the shorter length. -/
theorem c2_counterexample :
    ([exEntry] : List Entry).length = 1 ∧
    (shippedBatchTranslate ["Hello".toList] "fr".toList "en".toList).length = 0 ∧
    get_translated_declarations shippedBatchTranslate [exEntry]
      "fr".toList "en".toList = [] :=
  ⟨rfl, rfl, rfl⟩

/-- C2 as amended: on a length mismatch the orchestrator raises nothing (it
is a total function into output lists); the output is the positional zip
truncated to the shorter of the two lengths — never padded. -/
theorem c2_amended_truncation (bt : BatchTranslate) (missing : List Entry)
    (dest src : PyStr)
    (h : (bt (missing.map fun x => x.2.2) dest src).length ≠ missing.length) :
    (get_translated_declarations bt missing dest src).length =
      min missing.length (bt (missing.map fun x => x.2.2) dest src).length ∧
    ∀ (i : Nat) (d : Entry) (t : Translation), missing[i]? = some d →
      (bt (missing.map fun x => x.2.2) dest src)[i]? = some t →
      (get_translated_declarations bt missing dest src)[i]? =
        some (d.1, d.2, t.text) :=
  ⟨length_get_translated bt missing dest src,
   fun i d t hd ht => getElem?_get_translated bt missing dest src i d t hd ht⟩

/-- Witness for the amended C2: the shipped dependency answers 0 items for 1
text; the output is the empty list (length `min 1 0`). -/
theorem c2_amended_truncation_witness :
    (get_translated_declarations shippedBatchTranslate [exEntry]
        "fr".toList "en".toList).length = 0 :=
  ((c2_amended_truncation shippedBatchTranslate [exEntry] "fr".toList "en".toList
      (by decide)).1).trans (by decide)

/-- C10: with the shipped `Translator`, whose batch call answers the empty
list for every input, the orchestrator returns the empty list for every list
of missing declarations and every language pair. -/
theorem c10_shipped_no_output (missing : List Entry) (dest src : PyStr) :
    get_translated_declarations shippedBatchTranslate missing dest src = [] := by
  simp [get_translated_declarations, shippedBatchTranslate]

/-! ### The translation loop of `main` (claim C3) -/

/-- C3 counterexample: with two comparison files, the first of which has no
resolvable language, the whole translation step returns that error — the
second file is never translated, although translating it alone succeeds. -/
theorem c3_counterexample :
    translate_loop shippedBatchTranslate basePathEx
        [(badPathEx, [exEntry]), (goodPathEx, [exEntry])] = .error badPathEx ∧
    translate_loop shippedBatchTranslate basePathEx
        [(goodPathEx, [exEntry])] = .ok [(goodPathEx, [])] :=
  ⟨rfl, rfl⟩

/-- C3 as amended: when language resolution fails for a comparison file with
missing declarations, the `ValueError` propagates out of the loop of `main`:
the whole translation step aborts with that error, and no comparison file
after it (`rest` is arbitrary) is processed. -/
theorem c3_amended_abort (bt : BatchTranslate) (base_file f : PyStr)
    (decls : List Entry) (rest : List (PyStr × List Entry)) (s : PyStr)
    (h1 : decls ≠ [])
    (h2 : get_language base_file = .ok s)
    (h3 : get_language f = .error f) :
    translate_loop bt base_file ((f, decls) :: rest) = .error f := by
  rw [translate_loop, if_neg (by simp [List.isEmpty_iff, h1]), h2]
  dsimp only
  rw [h3]

/-- Witness for the amended C3: the bad file aborts the step even though a
translatable file follows it. -/
theorem c3_amended_abort_witness :
    translate_loop shippedBatchTranslate basePathEx
        [(badPathEx, [exEntry]), (goodPathEx, [exEntry])] = .error badPathEx :=
  c3_amended_abort shippedBatchTranslate basePathEx badPathEx [exEntry]
    [(goodPathEx, [exEntry])] "en".toList (by decide) rfl rfl

/-! ### The Resource Parser (claims C5, C6 and C7) -/

/-- C6: when two or more lines match with the same key, the entry stored for
that key is the earliest such line's — its line index and value — and later
occurrences are discarded; `parse` is total, so no error is raised. -/
theorem c6_duplicate_first_occurrence (ls : List Line) (i j : Nat)
    (li lj : Line) (k vi vj : PyStr)
    (hij : i < j)
    (hgi : ls[i]? = some li) (hgj : ls[j]? = some lj)
    (hmi : matchLine (pyStrip li) = some (k, vi))
    (hmj : matchLine (pyStrip lj) = some (k, vj))
    (hfirst : ∀ (j0 : Nat), j0 < i → ∀ (l : Line), ls[j0]? = some l →
      ∀ v, matchLine (pyStrip l) ≠ some (k, v)) :
    findKey k (parseLines ls) = some (i, vi) := by
  rw [findKey_parseLines]
  simpa using specFirstOccurrence_at k vi ls i 0 li hgi hmi hfirst

/-- Witness for C6: a file repeating the key `a` keeps the line-0 value. -/
theorem c6_duplicate_first_occurrence_witness :
    findKey "a".toList
      (parseLines ["\"a\" = \"b\";".toList, "\"a\" = \"c\";".toList]) =
      some (0, "b".toList) :=
  c6_duplicate_first_occurrence
    ["\"a\" = \"b\";".toList, "\"a\" = \"c\";".toList] 0 1
    "\"a\" = \"b\";".toList "\"a\" = \"c\";".toList
    "a".toList "b".toList "c".toList
    (by omega) (by decide) (by decide) (by decide) (by decide)
    (fun j0 hlt => absurd hlt (Nat.not_lt_zero j0))

/-- C7 counterexample: the trimmed, non-blank line `"a" = "b"; tail` does not
conform to the claim's grammar — there is extra text after the trailing `;`,
so no key/value decomposition consumes the whole line — yet `parse` does not
skip it: `re.match` only anchors at the start, the prefix matches, and the
entry is kept. -/
theorem c7_counterexample :
    pyStrip junkTailLine = junkTailLine ∧
    junkTailLine ≠ [] ∧
    specGrammarLine junkTailLine = none ∧
    parseLines [junkTailLine] = [("a".toList, 0, "b".toList)] :=
  ⟨by decide, by decide, by decide, by decide⟩

/-- C7 as amended: `parse` is total (never fails on malformed lines); every
entry of the result comes from a line whose trimmed text the pattern matches
as a prefix, and a key no line prefix-matches is absent — but lines with
extra text after the trailing `;` do prefix-match and are parsed, not
skipped. -/
theorem c7_amended_skip_nonmatching (ls : List Line) (k : PyStr) :
    ((findKey k (parseLines ls)).isSome = true →
      ∃ (i : Nat) (li : Line) (v : PyStr),
        ls[i]? = some li ∧ matchLine (pyStrip li) = some (k, v)) ∧
    ((∀ (i : Nat) (li : Line), ls[i]? = some li →
        ∀ v, matchLine (pyStrip li) ≠ some (k, v)) →
      findKey k (parseLines ls) = none) := by
  constructor
  · intro h
    rw [findKey_parseLines] at h
    cases hp : specFirstOccurrence k 0 ls with
    | none => rw [hp] at h; simp at h
    | some p => exact specFirstOccurrence_isSome k ls 0 p hp
  · intro hnone
    rw [findKey_parseLines]
    exact specFirstOccurrence_none k ls 0 hnone

/-- Witness for the amended C7: a file whose only line matches nothing yields
no entry. -/
theorem c7_amended_skip_nonmatching_witness :
    findKey "a".toList (parseLines ["junk".toList]) = none :=
  (c7_amended_skip_nonmatching ["junk".toList] "a".toList).2 (by
    intro i li hget v hm
    cases i with
    | zero =>
      simp only [List.getElem?_cons_zero, Option.some.injEq] at hget
      subst hget
      rw [show matchLine (pyStrip "junk".toList) = none from by decide] at hm
      exact Option.noConfusion hm
    | succ n => simp at hget)

/-! ### Recovery of a well-formed line by the greedy matcher (claim C5) -/

theorem dropWhile_append_of_forall {α : Type} (p : α → Bool) :
    ∀ (w l : List α), (∀ c ∈ w, p c = true) →
      List.dropWhile p (w ++ l) = List.dropWhile p l := by
  intro w
  induction w with
  | nil => intro l _; rfl
  | cons c w ih =>
    intro l hw
    rw [List.cons_append,
      List.dropWhile_cons_of_pos (hw c (List.mem_cons_self c w))]
    exact ih l fun d hd => hw d (List.mem_cons_of_mem c hd)

/-- The greedy value group recovers a quote-free value followed by `";`. -/
theorem matchValue_closed (V : List Char) (hq : '"' ∉ V) (hn : '\n' ∉ V) :
    matchValue (V ++ ['"', ';']) = some V := by
  induction V with
  | nil => decide
  | cons c V ih =>
    simp only [List.mem_cons, not_or] at hq hn
    rw [List.cons_append, matchValue,
      ih (fun h => hq.2 h) (fun h => hn.2 h)]
    dsimp only
    rw [if_neg (fun h => hn.1 h.symm)]

/-- ` *"` then the value group, on spaces followed by the opening quote. -/
theorem matchRestAfterEq_closed (b : Nat) (V : List Char)
    (hq : '"' ∉ V) (hn : '\n' ∉ V) :
    matchRestAfterEq
      (List.replicate b ' ' ++ ('"' :: (V ++ ['"', ';']))) = some V := by
  rw [matchRestAfterEq, dropWhile_append_of_forall _ _ _ (by simp),
    List.dropWhile_cons_of_neg (by decide)]
  dsimp only
  rw [if_pos rfl]
  exact matchValue_closed V hq hn

/-- ` *= *"` then the value group, on the well-formed separator. -/
theorem matchRestAfterQuote_closed (a b : Nat) (V : List Char)
    (hq : '"' ∉ V) (hn : '\n' ∉ V) :
    matchRestAfterQuote (List.replicate a ' ' ++
      '=' :: (List.replicate b ' ' ++ '"' :: (V ++ ['"', ';']))) = some V := by
  rw [matchRestAfterQuote, dropWhile_append_of_forall _ _ _ (by simp),
    List.dropWhile_cons_of_neg (by decide)]
  dsimp only
  rw [if_pos rfl]
  exact matchRestAfterEq_closed b V hq hn

/-- No value group starts inside a quote-free value: the tail `" *= *"(.*)";`
cannot match there. -/
theorem matchRestAfterEq_quotefree (V : List Char) (hq : '"' ∉ V) :
    matchRestAfterEq (V ++ ['"', ';']) = none := by
  induction V with
  | nil => decide
  | cons c V ih =>
    simp only [List.mem_cons, not_or] at hq
    rw [matchRestAfterEq] at ih ⊢
    rw [List.cons_append]
    by_cases hc : c = ' '
    · rw [List.dropWhile_cons_of_pos (by simp [hc])]
      exact ih hq.2
    · rw [List.dropWhile_cons_of_neg (by simp [hc])]
      dsimp only
      exact if_neg (fun h => hq.1 h.symm)

/-- Nor can `" *= *"(.*)";` match starting inside a quote-free value. -/
theorem matchRestAfterQuote_quotefree (V : List Char) (hq : '"' ∉ V) :
    matchRestAfterQuote (V ++ ['"', ';']) = none := by
  induction V with
  | nil => decide
  | cons c V ih =>
    simp only [List.mem_cons, not_or] at hq
    rw [matchRestAfterQuote] at ih ⊢
    rw [List.cons_append]
    by_cases hc : c = ' '
    · rw [List.dropWhile_cons_of_pos (by simp [hc])]
      exact ih hq.2
    · rw [List.dropWhile_cons_of_neg (by simp [hc])]
      dsimp only
      by_cases hd : c = '='
      · rw [if_pos hd]
        exact matchRestAfterEq_quotefree V hq.2
      · exact if_neg hd

/-- No key candidate can start inside the quote-free value of a line. -/
theorem matchKey_quotefree_end (V : List Char) (hq : '"' ∉ V) :
    matchKey (V ++ ['"', ';']) = none := by
  induction V with
  | nil => decide
  | cons c V ih =>
    simp only [List.mem_cons, not_or] at hq
    rw [List.cons_append, matchKey, ih hq.2]
    dsimp only
    rw [matchRest, if_neg (fun h => hq.1 h.symm)]

/-- No key candidate can start inside the spaces before the value's opening
quote. -/
theorem matchKey_before_quote (b : Nat) (V : List Char) (hq : '"' ∉ V) :
    matchKey (List.replicate b ' ' ++ ('"' :: (V ++ ['"', ';']))) = none := by
  induction b with
  | zero =>
    rw [List.replicate, List.nil_append, matchKey, matchKey_quotefree_end V hq]
    dsimp only
    rw [matchRest, if_pos rfl, matchRestAfterQuote_quotefree V hq]
  | succ b ih =>
    rw [List.replicate_succ, List.cons_append, matchKey, ih]
    dsimp only
    rw [matchRest, if_neg (by decide)]

/-- No key candidate can start at or after the `=` separator. -/
theorem matchKey_mid (a b : Nat) (V : List Char) (hq : '"' ∉ V) :
    matchKey (List.replicate a ' ' ++
      '=' :: (List.replicate b ' ' ++ '"' :: (V ++ ['"', ';']))) = none := by
  induction a with
  | zero =>
    rw [List.replicate, List.nil_append, matchKey, matchKey_before_quote b V hq]
    dsimp only
    rw [matchRest, if_neg (by decide)]
  | succ a ih =>
    rw [List.replicate_succ, List.cons_append, matchKey, ih]
    dsimp only
    rw [matchRest, if_neg (by decide)]

/-- The greedy key group recovers a quote-free key: on a well-formed line the
last viable closing quote is the key's own. -/
theorem matchKey_closed (K : List Char) (a b : Nat) (V : List Char)
    (hqK : '"' ∉ K) (hnK : '\n' ∉ K) (hqV : '"' ∉ V) (hnV : '\n' ∉ V) :
    matchKey (K ++ '"' :: (List.replicate a ' ' ++
      '=' :: (List.replicate b ' ' ++ '"' :: (V ++ ['"', ';'])))) =
      some (K, V) := by
  induction K with
  | nil =>
    rw [List.nil_append, matchKey, matchKey_mid a b V hqV]
    dsimp only
    rw [matchRest, if_pos rfl, matchRestAfterQuote_closed a b V hqV hnV]
  | cons c K ih =>
    simp only [List.mem_cons, not_or] at hqK hnK
    rw [List.cons_append, matchKey, ih (fun h => hqK.2 h) (fun h => hnK.2 h)]
    dsimp only
    rw [if_neg (fun h => hnK.1 h.symm)]

/-- The full pattern on a well-formed line recovers exactly `(K, V)`. -/
theorem matchLine_closed (K : List Char) (a b : Nat) (V : List Char)
    (hqK : '"' ∉ K) (hnK : '\n' ∉ K) (hqV : '"' ∉ V) (hnV : '\n' ∉ V) :
    matchLine ('"' :: (K ++ '"' :: (List.replicate a ' ' ++
      '=' :: (List.replicate b ' ' ++ '"' :: (V ++ ['"', ';']))))) =
      some (K, V) := by
  rw [matchLine]
  exact matchKey_closed K a b V hqK hnK hqV hnV

/-- Stripping leaves a line that starts with `"` and ends with `;` intact
apart from its surrounding whitespace. -/
theorem pyStrip_sandwich (ws1 ws2 mid : List Char)
    (h1 : ∀ c ∈ ws1, pyIsSpace c = true) (h2 : ∀ c ∈ ws2, pyIsSpace c = true) :
    pyStrip (ws1 ++ ('"' :: mid ++ [';']) ++ ws2) = '"' :: mid ++ [';'] := by
  rw [pyStrip, List.append_assoc, dropWhile_append_of_forall _ _ _ h1,
    List.cons_append, List.cons_append,
    List.dropWhile_cons_of_neg (by decide)]
  simp only [List.reverse_cons, List.reverse_append, List.reverse_singleton,
    List.append_assoc, List.singleton_append, List.cons_append,
    List.nil_append]
  rw [dropWhile_append_of_forall _ _ _
      (fun c hc => h2 c (List.mem_reverse.mp hc)),
    List.dropWhile_cons_of_neg (by decide)]
  simp

/-- C5: a line at 0-based index `i` holding a well-formed declaration —
whitespace, `"K"`, spaces around `=`, `"V";`, whitespace — with quote-free,
newline-free key and value, and with `K` fresh (no earlier line matches with
key `K`), is parsed to exactly `K ↦ (i, V)`: key, value and 0-based line
index are recovered regardless of the whitespace variations. -/
theorem c5_wellformed_line_recovered (ls : List Line) (i : Nat)
    (K V ws1 ws2 : List Char) (a b : Nat)
    (hws1 : ∀ c ∈ ws1, pyIsSpace c = true)
    (hws2 : ∀ c ∈ ws2, pyIsSpace c = true)
    (hqK : '"' ∉ K) (hnK : '\n' ∉ K) (hqV : '"' ∉ V) (hnV : '\n' ∉ V)
    (hline : ls[i]? = some (ws1 ++ ('"' :: (K ++ '"' ::
      (List.replicate a ' ' ++ '=' :: (List.replicate b ' ' ++ '"' ::
        (V ++ ['"', ';']))))) ++ ws2))
    (hfresh : ∀ j, j < i → ∀ l, ls[j]? = some l →
      ∀ v, matchLine (pyStrip l) ≠ some (K, v)) :
    findKey K (parseLines ls) = some (i, V) := by
  rw [findKey_parseLines]
  have hshape : ('"' :: (K ++ '"' :: (List.replicate a ' ' ++
      '=' :: (List.replicate b ' ' ++ '"' :: (V ++ ['"', ';']))))) =
      '"' :: (K ++ '"' :: (List.replicate a ' ' ++
      '=' :: (List.replicate b ' ' ++ '"' :: (V ++ ['"'])))) ++ [';'] := by
    simp [List.append_assoc]
  have hmatch : matchLine (pyStrip (ws1 ++ ('"' :: (K ++ '"' ::
      (List.replicate a ' ' ++ '=' :: (List.replicate b ' ' ++ '"' ::
        (V ++ ['"', ';']))))) ++ ws2)) = some (K, V) := by
    rw [hshape, pyStrip_sandwich _ _ _ hws1 hws2, ← hshape]
    exact matchLine_closed K a b V hqK hnK hqV hnV
  simpa using specFirstOccurrence_at K V ls i 0 _ hline hmatch hfresh

/-- Witness for C5: a line with surrounding whitespace and two spaces around
the equals sign is recovered exactly. -/
theorem c5_wellformed_line_recovered_witness :
    findKey "hi".toList
      (parseLines [" \"hi\"  =  \"yo\"; ".toList]) = some (0, "yo".toList) :=
  c5_wellformed_line_recovered [" \"hi\"  =  \"yo\"; ".toList] 0
    "hi".toList "yo".toList [' '] [' '] 2 2
    (by decide) (by decide) (by decide) (by decide) (by decide) (by decide)
    (by decide)
    (fun j hj => absurd hj (Nat.not_lt_zero j))

/-! ### The Language Resolver (claim C9) -/

/-- A prefix occurrence is a substring occurrence. -/
theorem containsSub_of_isPre (pat l : List Char)
    (h : List.isPrefixOf pat l = true) : containsSub pat l = true := by
  cases l with
  | nil =>
    rw [containsSub]
    rw [List.isPrefixOf_iff_prefix] at h
    simp only [List.prefix_nil] at h
    simp [h]
  | cons c rest => simp [containsSub, h]

/-- Substring occurrences extend to the left. -/
theorem containsSub_cons (pat : List Char) (c : Char) (l : List Char)
    (h : containsSub pat l = true) : containsSub pat (c :: l) = true := by
  simp [containsSub, h]

/-- A successful language-tail match needs the literal `.lproj` in its
input. -/
theorem matchLangTail_lproj (code rest r : List Char)
    (h : matchLangTail code rest = some r) :
    containsSub lprojChars rest = true := by
  unfold matchLangTail at h
  split at h
  · split at h
    · rename_i a b r2 hcond
      simp only [Bool.and_eq_true] at hcond
      exact containsSub_cons _ _ _ (containsSub_cons _ _ _
        (containsSub_cons _ _ _ (containsSub_of_isPre _ _ hcond.2)))
    · split at h
      · rename_i hpre
        exact containsSub_of_isPre _ _ hpre
      · exact absurd h (by simp)
  · split at h
    · rename_i hpre
      exact containsSub_of_isPre _ _ hpre
    · exact absurd h (by simp)

/-- A successful anchored language match needs the literal `.lproj`. -/
theorem matchLangAt_lproj (s r : List Char) (h : matchLangAt s = some r) :
    containsSub lprojChars s = true := by
  unfold matchLangAt at h
  split at h
  · split at h
    · split at h
      · split at h
        · rename_i hm
          exact containsSub_cons _ _ _ (containsSub_cons _ _ _
            (containsSub_cons _ _ _ (matchLangTail_lproj _ _ _ hm)))
        · exact containsSub_cons _ _ _ (containsSub_cons _ _ _
            (matchLangTail_lproj _ _ _ h))
      · exact containsSub_cons _ _ _ (containsSub_cons _ _ _
          (matchLangTail_lproj _ _ _ h))
    · exact absurd h (by simp)
  · split at h
    · exact containsSub_cons _ _ _ (containsSub_cons _ _ _
        (matchLangTail_lproj _ _ _ h))
    · exact absurd h (by simp)
  · exact absurd h (by simp)

/-- A successful search needs the literal `.lproj` somewhere in the path. -/
theorem searchLang_some_contains (p : List Char) :
    ∀ r, searchLang p = some r → containsSub lprojChars p = true := by
  induction p with
  | nil => intro r h; simp [searchLang] at h
  | cons c rest ih =>
    intro r h
    rw [searchLang] at h
    cases hm : matchLangAt (c :: rest) with
    | some r0 => exact matchLangAt_lproj _ _ hm
    | none =>
      rw [hm] at h
      dsimp only at h
      exact containsSub_cons _ _ _ (ih r h)

/-- C9: `get_language` resolves the spec's example paths — `fr.lproj` to
`fr` and `zh-CN.lproj` to `zh-CN` — and fails with the `ValueError`
(`UnresolvedLanguage`) for every path that has no `.lproj` segment. -/
theorem c9_language_resolution :
    get_language "/Res/fr.lproj/Localizable.strings".toList =
      .ok "fr".toList ∧
    get_language "/Res/zh-CN.lproj/Localizable.strings".toList =
      .ok "zh-CN".toList ∧
    ∀ p : PyStr, containsSub lprojChars p = false →
      get_language p = .error p := by
  refine ⟨rfl, rfl, fun p h => ?_⟩
  cases hs : searchLang p with
  | some r => rw [searchLang_some_contains p r hs] at h; exact absurd h (by simp)
  | none => rw [get_language, hs]

/-- Witness for C9 on a path with no `.lproj` segment. -/
theorem c9_language_resolution_witness :
    get_language "/no/match".toList = .error "/no/match".toList :=
  c9_language_resolution.2.2 "/no/match".toList (by decide)

end LocalizationScript
